import Mathlib

/-!
Verification development for the `author-rpa` repository.

This file gives a shallow embedding, in Lean 4, of the workflow execution
engine (`src/rpa/workflows/automation.py`: `AutomationWorkflow.run`,
`AutomationWorkflow._resolve_value`) and of the natural-language intent
parser (`src/rpa/core/nlp.py`: `NaturalLanguageProcessor._parse_with_rules`,
`_extract_entities`, `_get_suggested_action`, `parse`, and
`NaturalLanguageInterface.process`), together with theorems settling the
claims C1..C10 about that code.

Modelling conventions:
* Python values that can live in the workflow context or in entity maps are
  embedded as the inductive `Value` (strings, integers, booleans, None,
  lists, string-keyed dicts).  Python `str()` / `repr()` is embedded as
  `pyStr` / `pyRepr`; for container values the textual form is an ASCII
  approximation of CPython's repr (single quotes, no escape processing) —
  no claim depends on the exact repr of a container.
* The Capability Surface (the `self.rpa.*` modules) is external to the core
  per the spec, and the claims quantify over every behavior of it, so step
  dispatch (`_execute_step`) is modelled by an oracle
  `beh : Nat → Nat → Except String Value` giving, per step index and
  attempt index, either a result value or the message of the exception
  raised.  Likewise Python's `eval` of a condition string is an oracle
  `condEval : String → Ctx → Except String Value`, and the regex engine's
  output on the registered patterns is an oracle list of `RuleMatch`
  records (intent, matched-span length, capture groups).
* Wall-clock durations are environment inputs, modelled by an oracle
  `dur : Nat → Rat`; the `started_at` / `completed_at` timestamp strings of
  the run report are pure wall-clock data and are not modelled.
* Machine floats (`retry_delay`, confidence scores) are embedded as `Rat`;
  the arithmetic the source performs on them (min, +, /) is exact at every
  value the claims exercise.
-/

namespace AuthorRpa

/-- Embedded Python value: the payloads that flow through the workflow
context, step results and entity maps. -/
inductive Value where
  | vstr (s : String)
  | vint (n : Int)
  | vbool (b : Bool)
  | vnone
  | vlist (xs : List Value)
  | vdict (xs : List (String × Value))
deriving Repr

mutual

/-- Decidable equality for `Value` (written out because the nested
inductive defeats automatic deriving). -/
def valueBEq : Value → Value → Bool
  | .vstr a, .vstr b => a == b
  | .vint a, .vint b => a == b
  | .vbool a, .vbool b => a == b
  | .vnone, .vnone => true
  | .vlist a, .vlist b => valueListBEq a b
  | .vdict a, .vdict b => valueDictBEq a b
  | _, _ => false

def valueListBEq : List Value → List Value → Bool
  | [], [] => true
  | a :: as, b :: bs => valueBEq a b && valueListBEq as bs
  | _, _ => false

def valueDictBEq : List (String × Value) → List (String × Value) → Bool
  | [], [] => true
  | (ka, va) :: as, (kb, vb) :: bs => ka == kb && valueBEq va vb && valueDictBEq as bs
  | _, _ => false

end

mutual

/-- Python `repr` of an embedded value (ASCII approximation: strings are
wrapped in single quotes without escape processing). -/
def pyRepr : Value → String
  | .vstr s => "'" ++ s ++ "'"
  | .vint n => toString n
  | .vbool b => if b then ("True") else ("False")
  | .vnone => "None"
  | .vlist xs => "[" ++ pyReprList xs ++ "]"
  | .vdict xs => "\x7b" ++ pyReprDict xs ++ "\x7d"

def pyReprList : List Value → String
  | [] => ""
  | [x] => pyRepr x
  | x :: y :: xs => pyRepr x ++ ", " ++ pyReprList (y :: xs)

def pyReprDict : List (String × Value) → String
  | [] => ""
  | [(k, v)] => "'" ++ k ++ "': " ++ pyRepr v
  | (k, v) :: y :: xs => "'" ++ k ++ "': " ++ pyRepr v ++ ", " ++ pyReprDict (y :: xs)

end

/-- Python `str` of an embedded value: identity on strings, `repr`
otherwise (CPython's `str` coincides with `repr` on ints, bools, None,
lists and dicts). -/
def pyStr : Value → String
  | .vstr s => s
  | .vint n => toString n
  | .vbool b => if b then ("True") else ("False")
  | .vnone => "None"
  | v => pyRepr v

/-- Python truthiness of an embedded value. -/
def truthy : Value → Bool
  | .vstr s => s ≠ ""
  | .vint n => n ≠ 0
  | .vbool b => b
  | .vnone => false
  | .vlist xs => !xs.isEmpty
  | .vdict xs => !xs.isEmpty

/-- The workflow Variable Context / any Python string-keyed dict:
an association list with at most one binding per key. -/
abbrev Ctx := List (String × Value)

/-- Dict lookup (`ctx[k]` / `ctx.get(k)`). -/
def ctxGet (ctx : Ctx) (k : String) : Option Value :=
  match ctx with
  | [] => none
  | (k', v) :: rest => if k' = k then some v else ctxGet rest k

/-- Dict assignment `ctx[k] = v`: replaces an existing binding in place,
appends a fresh one otherwise (CPython dict insertion-order semantics). -/
def ctxSet (ctx : Ctx) (k : String) (v : Value) : Ctx :=
  match ctx with
  | [] => [(k, v)]
  | (k', v') :: rest => if k' = k then (k', v) :: rest else (k', v') :: ctxSet rest k v

/-- Dict `update`: assign every binding of `upd`, in order, into `ctx`. -/
def ctxUpdate (ctx : Ctx) (upd : Ctx) : Ctx :=
  upd.foldl (fun c kv => ctxSet c kv.1 kv.2) ctx

/- ===================================================================
   Template placeholders: the regex `\x7b\x7b(\w+)\x7d\x7d` of
   `AutomationWorkflow._resolve_value` (automation.py:433) and Python's
   `re.findall` / `str.replace` over it.
   =================================================================== -/

/-- A `\w` word character (ASCII reading: letter, digit or underscore). -/
def isWordChar (c : Char) : Bool := c.isAlphanum || c == '_'

/-- Opening brace character. -/
def lbrace : Char := '\x7b'

/-- Closing brace character. -/
def rbrace : Char := '\x7d'

/-- The literal placeholder text for identifier `x`. -/
def ph (x : String) : String := "\x7b\x7b" ++ x ++ "\x7d\x7d"

/-- Try to match the placeholder pattern at the head of the character
list; on success return the captured identifier and the remaining
characters after the match. -/
def tryMatchPh (cs : List Char) : Option (String × List Char) :=
  match cs with
  | c1 :: c2 :: rest =>
      if c1 = lbrace ∧ c2 = lbrace then
        let ids := rest.takeWhile isWordChar
        match rest.dropWhile isWordChar with
        | d1 :: d2 :: rest3 =>
            if ids ≠ [] ∧ d1 = rbrace ∧ d2 = rbrace then some (String.mk ids, rest3)
            else none
        | _ => none
      else none
  | _ => none

/-- `re.findall` scan: left-to-right, non-overlapping; on a failed match
advance one character.  Fuel-indexed so the kernel can evaluate it; the
fuel is always instantiated with the list length, which bounds the number
of scan steps. -/
def scanAux : Nat → List Char → List String
  | 0, _ => []
  | _, [] => []
  | fuel + 1, c :: cs =>
      match tryMatchPh (c :: cs) with
      | some (id, rest) => id :: scanAux fuel rest
      | none => scanAux fuel cs

/-- All placeholder identifiers occurring in `s`, in order of occurrence
(`re.findall(pattern, value)` at automation.py:434). -/
def findPlaceholders (s : String) : List String :=
  scanAux s.data.length s.data

/-- One step of Python `str.replace`: left-to-right, non-overlapping.
Fuel-indexed; fuel is instantiated with the length of the subject. -/
def replaceAux (tgt rep : List Char) : Nat → List Char → List Char
  | _, [] => []
  | 0, s => s
  | fuel + 1, c :: cs =>
      if tgt.isPrefixOf (c :: cs) then rep ++ replaceAux tgt rep fuel ((c :: cs).drop tgt.length)
      else c :: replaceAux tgt rep fuel cs

/-- Python `s.replace(tgt, rep)` (all occurrences, left to right). -/
def strReplaceAll (s tgt rep : String) : String :=
  String.mk (replaceAux tgt.data rep.data s.data.length s.data)

/-- The `for var_name in matches` loop body of `_resolve_value`
(automation.py:435-443): for each found identifier bound in the context,
if the current string equals the bare placeholder return the context
value itself (type preserved), otherwise splice in its `str` form;
identifiers not bound in the context are skipped. -/
def resolveLoop (ctx : Ctx) : List String → String → Value
  | [], v => .vstr v
  | id :: rest, v =>
      match ctxGet ctx id with
      | some w =>
          if v = ph id then w
          else resolveLoop ctx rest (strReplaceAll v (ph id) (pyStr w))
      | none => resolveLoop ctx rest v

/-- String case of `_resolve_value` (automation.py:430-444). -/
def resolveString (ctx : Ctx) (s : String) : Value :=
  resolveLoop ctx (findPlaceholders s) s

mutual

/-- `AutomationWorkflow._resolve_value` (automation.py:428-449): strings
go through placeholder resolution, dicts and lists are resolved
element-wise, everything else is returned unchanged. -/
def resolveValue (ctx : Ctx) : Value → Value
  | .vstr s => resolveString ctx s
  | .vdict xs => .vdict (resolveDict ctx xs)
  | .vlist xs => .vlist (resolveList ctx xs)
  | v => v

def resolveList (ctx : Ctx) : List Value → List Value
  | [] => []
  | x :: xs => resolveValue ctx x :: resolveList ctx xs

def resolveDict (ctx : Ctx) : List (String × Value) → List (String × Value)
  | [] => []
  | (k, v) :: xs => (k, resolveValue ctx v) :: resolveDict ctx xs

end

/-- Modelled from the spec (§4.3 wording, for comparison with the source's
`resolveString`): each bound placeholder of the original string is
replaced, in order of occurrence, by the string form of its context
value. -/
def specInterpolate (ctx : Ctx) : List String → String → String
  | [], s => s
  | id :: rest, s =>
      match ctxGet ctx id with
      | some v => specInterpolate ctx rest (strReplaceAll s (ph id) (pyStr v))
      | none => specInterpolate ctx rest s

/-- Modelled from the spec (§4.3 wording, for comparison with the source's
`resolveString`): a string that is exactly a single bound placeholder
resolves to the context value unchanged; any other string has each bound
placeholder replaced by the string form of its value, unresolved
placeholders staying as literal text. -/
def specResolveString (ctx : Ctx) (s : String) : Value :=
  match findPlaceholders s with
  | [x] =>
      if s = ph x then
        match ctxGet ctx x with
        | some v => v
        | none => .vstr s
      else .vstr (specInterpolate ctx [x] s)
  | ids => .vstr (specInterpolate ctx ids s)

/- ===================================================================
   Intent parser: `src/rpa/core/nlp.py`.
   =================================================================== -/

/-- `IntentType` (nlp.py:17-57). -/
inductive IntentType where
  | readFile | writeFile | copyFile | moveFile | deleteFile | listFiles
  | readSpreadsheet | writeSpreadsheet | filterData
  | createDocument | fillForm | createPdf | extractPdf
  | fetchUrl | scrapePage | apiCall | download
  | queryDatabase | sendEmail
  | runWorkflow | createWorkflow
  | help | status | unknown
deriving DecidableEq, Repr

/-- The `.value` string of each `IntentType` member. -/
def intentValue : IntentType → String
  | .readFile => "read_file"
  | .writeFile => "write_file"
  | .copyFile => "copy_file"
  | .moveFile => "move_file"
  | .deleteFile => "delete_file"
  | .listFiles => "list_files"
  | .readSpreadsheet => "read_spreadsheet"
  | .writeSpreadsheet => "write_spreadsheet"
  | .filterData => "filter_data"
  | .createDocument => "create_document"
  | .fillForm => "fill_form"
  | .createPdf => "create_pdf"
  | .extractPdf => "extract_pdf"
  | .fetchUrl => "fetch_url"
  | .scrapePage => "scrape_page"
  | .apiCall => "api_call"
  | .download => "download"
  | .queryDatabase => "query_database"
  | .sendEmail => "send_email"
  | .runWorkflow => "run_workflow"
  | .createWorkflow => "create_workflow"
  | .help => "help"
  | .status => "status"
  | .unknown => "unknown"

/-- `ParsedIntent` (nlp.py:60-67). -/
structure ParsedIntent where
  intent : IntentType
  confidence : Rat
  entities : List (String × Value)
  rawText : String
  suggestedAction : Option String := none
deriving Repr

/-- One successful `pattern.search(text)` outcome, as reported by the host
regex engine: the intent the pattern is registered under, the length of
`match.group(0)`, and the capture groups (`None` captures are `none`).
The engine itself is the Python runtime, external to the embedding, so
the flattened list of matches — in registration order: intents in dict
insertion order, patterns in list order — is an oracle input. -/
structure RuleMatch where
  intent : IntentType
  matchLen : Nat
  groups : List (Option String)

/-- Python `str.strip()`: remove leading and trailing whitespace. -/
def pyStripWs (s : String) : String :=
  String.mk (((s.data.dropWhile Char.isWhitespace).reverse.dropWhile Char.isWhitespace).reverse)

/-- Quote characters stripped by `strip("'\x22")` in `_extract_entities`. -/
def isQuoteChar (c : Char) : Bool := c == '\'' || c == '"'

/-- Python `s.strip(chars)` for a character class: remove leading and
trailing characters satisfying `p`. -/
def stripChars (p : Char → Bool) (s : String) : String :=
  String.mk (((s.data.dropWhile p).reverse.dropWhile p).reverse)

/-- The `group.strip().strip("'\x22")` idiom of `_extract_entities`:
whitespace is stripped first, then surrounding quote characters. -/
def stripQW (s : String) : String := stripChars isQuoteChar (pyStripWs s)

/-- Python `s.startswith(p)`. -/
def startsWith (s p : String) : Bool := p.data.isPrefixOf s.data

/-- The `if groups and groups[0]` guard of `_extract_entities`: the first
capture group when the group list is non-empty and that group is truthy
(non-`None`, non-empty). -/
def groupsHeadTruthy : List (Option String) → Option String
  | some g :: _ => if g = "" then none else some g
  | _ => none

/-- `NaturalLanguageProcessor._extract_entities` (nlp.py:256-306).  A
`none` in the second capture position of the two-capture branches would
raise `AttributeError` in the source; the registered patterns never
produce one there, and the embedding reads it as the empty string. -/
def extractEntities (intent : IntentType) (groups : List (Option String)) (_text : String) :
    List (String × Value) :=
  if intent = .readFile ∨ intent = .deleteFile ∨ intent = .extractPdf then
    match groupsHeadTruthy groups with
    | some g => [("path", .vstr (stripQW g))]
    | none => []
  else if intent = .writeFile then
    match groups with
    | g0 :: g1 :: _ =>
        [("content", match g0 with | some s => .vstr s | none => .vnone),
         ("path", .vstr (stripQW (g1.getD (""))))]
    | _ => []
  else if intent = .copyFile ∨ intent = .moveFile then
    match groups with
    | g0 :: g1 :: _ =>
        [("source", .vstr (stripQW (g0.getD ("")))),
         ("destination", .vstr (stripQW (g1.getD (""))))]
    | _ => []
  else if intent = .listFiles then
    match groupsHeadTruthy groups with
    | some g => [("path", .vstr (stripQW g))]
    | none => [("path", .vstr ("."))]
  else if intent = .readSpreadsheet ∨ intent = .writeSpreadsheet then
    match groupsHeadTruthy groups with
    | some g => [("path", .vstr (stripQW g))]
    | none => []
  else if intent = .createDocument ∨ intent = .createPdf then
    match groupsHeadTruthy groups with
    | some g => [("output_path", .vstr (stripQW g))]
    | none => []
  else if intent = .fillForm then
    match groupsHeadTruthy groups with
    | some g => [("form_path", .vstr (stripQW g))]
    | none => []
  else if intent = .fetchUrl ∨ intent = .scrapePage then
    match groupsHeadTruthy groups with
    | some g =>
        let url := stripQW g
        let url := if !startsWith url ("http") then "https://" ++ url else url
        [("url", .vstr url)]
    | none => []
  else if intent = .sendEmail then
    match groupsHeadTruthy groups with
    | some g => [("recipient", .vstr (pyStripWs g))]
    | none => []
  else []

/-- `entities.get(k, default)` rendered into an f-string: the `str` form
of the stored value, or the default text. -/
def entGet (ents : List (String × Value)) (k d : String) : String :=
  match ctxGet ents k with
  | some v => pyStr v
  | none => d

/-- `NaturalLanguageProcessor._get_suggested_action` (nlp.py:308-331):
intents absent from the suggestion table fall back to `"Execute action"`. -/
def suggestedActionFor (intent : IntentType) (ents : List (String × Value)) : String :=
  match intent with
  | .readFile => "Read file: " ++ entGet ents ("path") ("<path>")
  | .writeFile => "Write to: " ++ entGet ents ("path") ("<path>")
  | .copyFile => "Copy " ++ entGet ents ("source") ("<source>") ++ " to " ++ entGet ents ("destination") ("<dest>")
  | .moveFile => "Move " ++ entGet ents ("source") ("<source>") ++ " to " ++ entGet ents ("destination") ("<dest>")
  | .deleteFile => "Delete: " ++ entGet ents ("path") ("<path>")
  | .listFiles => "List files in: " ++ entGet ents ("path") (".")
  | .readSpreadsheet => "Read spreadsheet: " ++ entGet ents ("path") ("<path>")
  | .writeSpreadsheet => "Write spreadsheet: " ++ entGet ents ("path") ("<path>")
  | .createDocument => "Create document: " ++ entGet ents ("output_path") ("<path>")
  | .fillForm => "Fill form: " ++ entGet ents ("form_path") ("<path>")
  | .createPdf => "Create PDF: " ++ entGet ents ("output_path") ("<path>")
  | .extractPdf => "Extract text from: " ++ entGet ents ("path") ("<path>")
  | .fetchUrl => "Fetch: " ++ entGet ents ("url") ("<url>")
  | .scrapePage => "Scrape: " ++ entGet ents ("url") ("<url>")
  | .sendEmail => "Send email to: " ++ entGet ents ("recipient") ("<recipient>")
  | .help => "Show available commands"
  | .status => "Show system status"
  | _ => "Execute action"

/-- Confidence of one rule match (nlp.py:231-232):
`coverage = len(match.group(0)) / len(text)` and
`confidence = min(0.9, coverage + 0.3)`. -/
def conf (total matchLen : Nat) : Rat :=
  min ((9 : Rat) / 10) ((matchLen : Rat) / (total : Rat) + (3 : Rat) / 10)

/-- The best-match fold of `_parse_with_rules` (nlp.py:222-237): state
`(best_match, best_confidence, best_entities)`, updated whenever a match's
confidence strictly exceeds the best so far; entities are extracted at
update time. -/
def pickBestAux (text : String) (best : Option IntentType) (bc : Rat)
    (bents : List (String × Value)) : List RuleMatch → Option IntentType × Rat × List (String × Value)
  | [] => (best, bc, bents)
  | m :: ms =>
      let c := conf text.length m.matchLen
      if bc < c then pickBestAux text (some m.intent) c (extractEntities m.intent m.groups text) ms
      else pickBestAux text best bc bents ms

/-- The fallback suggestion of the no-match branch (nlp.py:253). -/
def fallbackSuggestion : String := "I didn't understand that. Try 'help' for available commands."

/-- `NaturalLanguageProcessor._parse_with_rules` (nlp.py:220-254), with
the regex outcomes supplied as the oracle list `ms`. -/
def parseWithRules (text : String) (ms : List RuleMatch) : ParsedIntent :=
  match pickBestAux text none 0 [] ms with
  | (some it, bc, ents) =>
      { intent := it, confidence := bc, entities := ents, rawText := text,
        suggestedAction := some (suggestedActionFor it ents) }
  | (none, _, _) =>
      { intent := .unknown, confidence := 0, entities := [], rawText := text,
        suggestedAction := some fallbackSuggestion }

/-- `NaturalLanguageProcessor.parse` (nlp.py:199-218) in the configuration
without an LLM credential (the LLM branch is not entered, matching the
spec's rule-based path): strip the input, then parse with rules. -/
def parseCmd (text : String) (ms : List RuleMatch) : ParsedIntent :=
  parseWithRules (pyStripWs text) ms

/- ===================================================================
   Natural-language interface: `NaturalLanguageInterface.process`
   (nlp.py:436-473).
   =================================================================== -/

/-- The structured outcome dict returned by `process`. -/
structure ProcessResult where
  success : Bool
  intent : String
  action : Option String
  result : Option Value := none
  error : Option String := none

/-- One `self.history` entry appended by `process` (nlp.py:451-455). -/
structure HistoryEntry where
  command : String
  intent : String
  confidence : Rat

/-- `NaturalLanguageInterface.process` (nlp.py:436-473): parse, record a
history entry, then dispatch; a dispatch exception is caught and turned
into a `success := false` outcome, a dispatch value into a
`success := true` outcome.  The dispatch of `_execute_intent` through the
Capability Surface is the oracle `dispatch`. -/
def processCmd (command : String) (ms : List RuleMatch)
    (dispatch : ParsedIntent → Except String Value) : ProcessResult × HistoryEntry :=
  let parsed := parseCmd command ms
  let hist : HistoryEntry :=
    { command := command, intent := intentValue parsed.intent, confidence := parsed.confidence }
  match dispatch parsed with
  | .ok r =>
      ({ success := true, intent := intentValue parsed.intent,
         action := parsed.suggestedAction, result := some r, error := none }, hist)
  | .error e =>
      ({ success := false, intent := intentValue parsed.intent,
         action := parsed.suggestedAction, result := none, error := some e }, hist)

/- ===================================================================
   Workflow executor: `src/rpa/workflows/automation.py`,
   `AutomationStep` (lines 73-84) and `AutomationWorkflow.run`
   (lines 645-753).
   =================================================================== -/

/-- `AutomationStep` (automation.py:73-84).  `step_type` and `params`
are consumed only by `_execute_step`, whose capability dispatch (after
`_resolve_value` on the params) is abstracted into the behavior oracle
of `runSteps`, so they are not carried here; `depends_on` is declared in
the source but never read by the executor. -/
structure Step where
  name : String
  condition : Option String := none
  onError : String := "fail"
  retryCount : Nat := 0
  retryDelay : Rat := 1
  saveResultAs : Option String := none

/-- One entry of the `step_results` list of the run report, mirroring the
exact dict shape the source appends in each branch of `run`:
`completed` (automation.py:700-705), `condSkipped` (674-678),
`errSkipped` (720-724), `failedRec` (727-731). -/
inductive StepRecord where
  | completed (name : String) (duration : Rat) (result : Option String)
  | condSkipped (name : String)
  | errSkipped (name : String) (error : String)
  | failedRec (name : String) (error : String)
deriving DecidableEq, Repr

/-- The keys of the dict each `StepRecord` embeds (the `reason` of a
condition skip is the fixed text `"condition not met"`). -/
def recKeys : StepRecord → List String
  | .completed _ _ _ => ["name", "status", "duration", "result"]
  | .condSkipped _ => ["name", "status", "reason"]
  | .errSkipped _ _ => ["name", "status", "error"]
  | .failedRec _ _ => ["name", "status", "error"]

/-- The `status` value of each record shape. -/
def recStatus : StepRecord → String
  | .completed _ _ _ => "completed"
  | .condSkipped _ => "skipped"
  | .errSkipped _ _ => "skipped"
  | .failedRec _ _ => "failed"

/-- Instrumentation of one step's execution: how many times
`_execute_step` was invoked for it and which sleeps `time.sleep`
performed between attempts.  A condition-skipped step has zero
invocations and no sleeps. -/
structure StepTrace where
  name : String
  invocations : Nat
  sleeps : List Rat
deriving Repr

/-- The run report dict returned by `run` (automation.py:744-753); the
wall-clock `duration` / `started_at` / `completed_at` fields are pure
environment time and are not modelled. -/
structure RunReport where
  workflow : String
  status : String
  steps : List StepRecord
  results : Ctx
  failedStep : Option String
deriving Repr

/-- `AutomationWorkflow` instance state touched by `run`: name, step
list, `self.context` and `self.results`. -/
structure Workflow where
  name : String
  steps : List Step
  context : Ctx := []
  results : Ctx := []

/-- The retry `while` loop of `run` (automation.py:688-733) for one step:
invoke the behavior at successive attempt indices; a success exits
immediately; a failure increments the attempt count and, when attempts
remain, sleeps `retry_delay` and retries.  Returns the final outcome, the
number of invocations made, and the sleeps performed.  `remaining` is
`max_attempts - attempts`; the loop is always entered with
`remaining = retry_count + 1 ≥ 1`, so the fuel-zero row is never hit. -/
def attemptLoop (beh1 : Nat → Except String Value) (delay : Rat) :
    Nat → Nat → Except String Value × Nat × List Rat
  | 0, _ => (.error (""), 0, [])
  | remaining + 1, a =>
      match beh1 a with
      | .ok v => (.ok v, 1, [])
      | .error e =>
          if remaining = 0 then (.error e, 1, [])
          else
            let r := attemptLoop beh1 delay remaining (a + 1)
            (r.1, r.2.1 + 1, delay :: r.2.2)

/-- The mutable state the `for step in self.steps` loop of `run` threads:
the context, the `self.results` map, the accumulated `step_results` list,
the instrumentation trace, the `failed` flag and `failed_step`. -/
abbrev ExecState := Ctx × Ctx × List StepRecord × List StepTrace × Bool × Option String

/-- The condition check of `run` (automation.py:669-681): a step with a
condition is skipped iff evaluating it yields a falsy value; an
evaluation error is logged and the step proceeds (treated as condition
met). -/
def condSkipped (condEval : String → Ctx → Except String Value) (s : Step) (ctx : Ctx) : Bool :=
  match s.condition with
  | none => false
  | some c =>
      match condEval c ctx with
      | .ok v => !truthy v
      | .error _ => false

/-- One iteration of the `for step in self.steps` loop of `run`
(automation.py:664-736): evaluate the condition (a falsy value records a
skip and `continue`s), run the retry loop, then on success save the
result when requested and record completion, on exhaustion record a skip
or a failure per `on_error`.  The second component is whether the
source's `if failed and step.on_error == "fail": break` fires after this
iteration (the condition-skip branch `continue`s past that check). -/
def runStep1 (condEval : String → Ctx → Except String Value)
    (beh : Nat → Nat → Except String Value) (dur : Nat → Rat) (s : Step) (i : Nat) :
    ExecState → ExecState × Bool
  | (ctx, res, recs, trs, failed, fstep) =>
    if condSkipped condEval s ctx then
      ((ctx, res, recs ++ [.condSkipped s.name], trs ++ [⟨s.name, 0, []⟩], failed, fstep), false)
    else
      match attemptLoop (beh i) s.retryDelay (s.retryCount + 1) 0 with
      | (.ok v, inv, sleeps) =>
          let ctx' := match s.saveResultAs with
            | some k => ctxSet ctx k v
            | none => ctx
          let res' := match s.saveResultAs with
            | some k => ctxSet res k v
            | none => res
          let preview : Option String := if truthy v then some ((pyStr v).take 200) else none
          ((ctx', res', recs ++ [.completed s.name (dur i) preview],
            trs ++ [⟨s.name, inv, sleeps⟩], failed, fstep),
           failed && s.onError == "fail")
      | (.error e, inv, sleeps) =>
          if s.onError == "skip" then
            ((ctx, res, recs ++ [.errSkipped s.name e], trs ++ [⟨s.name, inv, sleeps⟩],
              failed, fstep), false)
          else
            ((ctx, res, recs ++ [.failedRec s.name e], trs ++ [⟨s.name, inv, sleeps⟩],
              true, some s.name),
             s.onError == "fail")

/-- The `for step in self.steps` loop of `run` (automation.py:664-736):
run each step in order, stopping early when an iteration reports that the
`break` fired. -/
def runSteps (condEval : String → Ctx → Except String Value)
    (beh : Nat → Nat → Except String Value) (dur : Nat → Rat) :
    List Step → Nat → ExecState → ExecState
  | [], _, st => st
  | s :: rest, i, st =>
      match runStep1 condEval beh dur s i st with
      | (st', brk) => if brk then st' else runSteps condEval beh dur rest (i + 1) st'

/-- `AutomationWorkflow.run` (automation.py:645-753): merge the initial
context into `self.context`, clear `self.results`, execute the steps,
and return the run report, the updated instance state, and the
instrumentation trace. -/
def runWf (wf : Workflow) (initCtx : Ctx) (condEval : String → Ctx → Except String Value)
    (beh : Nat → Nat → Except String Value) (dur : Nat → Rat) :
    RunReport × Workflow × List StepTrace :=
  let ctx0 := ctxUpdate wf.context initCtx
  match runSteps condEval beh dur wf.steps 0 (ctx0, [], [], [], false, none) with
  | (ctx, res, recs, trs, failed, fstep) =>
      ({ workflow := wf.name, status := if failed then ("failed") else ("completed"),
         steps := recs, results := res, failedStep := fstep },
       { wf with context := ctx, results := res }, trs)

/- ===================================================================
   Supporting lemmas for the placeholder machinery.
   =================================================================== -/

/-- An identifier the placeholder regex can capture: non-empty, all word
characters. -/
def isIdent (x : String) : Prop := x ≠ "" ∧ ∀ c ∈ x.data, isWordChar c

theorem scanAux_nil (fuel : Nat) : scanAux fuel [] = [] := by
  cases fuel <;> rfl

theorem ph_data (x : String) :
    (ph x).data = lbrace :: lbrace :: (x.data ++ [rbrace, rbrace]) := by
  show ("\x7b\x7b".data ++ x.data) ++ "\x7d\x7d".data = _
  simp [lbrace, rbrace]

theorem string_ne_empty_data {x : String} (hx : x ≠ "") : x.data ≠ [] := by
  intro h
  apply hx
  cases x
  simp_all [String.ext_iff]

theorem scanAux_cons (fuel : Nat) (c : Char) (cs : List Char) :
    scanAux (fuel + 1) (c :: cs)
      = match tryMatchPh (c :: cs) with
        | some (id, rest) => id :: scanAux fuel rest
        | none => scanAux fuel cs := rfl

/-- On the literal placeholder text of a word identifier, `re.findall`
finds exactly that identifier. -/
theorem findPh_single {x : String} (hx : isIdent x) :
    findPlaceholders (ph x) = [x] := by
  obtain ⟨hne, hw⟩ := hx
  have hl : x.data ≠ [] := string_ne_empty_data hne
  have htake : (x.data ++ [rbrace, rbrace]).takeWhile isWordChar = x.data := by
    rw [List.takeWhile_append_of_pos hw]
    simp [isWordChar, rbrace]
  have hdrop : (x.data ++ [rbrace, rbrace]).dropWhile isWordChar = [rbrace, rbrace] := by
    rw [List.dropWhile_append_of_pos hw]
    simp [isWordChar, rbrace]
  have hmatch : tryMatchPh (lbrace :: lbrace :: (x.data ++ [rbrace, rbrace]))
      = some (x, []) := by
    simp only [tryMatchPh, htake, hdrop]
    rw [if_pos ⟨trivial, trivial⟩, if_pos ⟨hl, trivial, trivial⟩]
  unfold findPlaceholders
  rw [ph_data x]
  simp only [List.length_cons]
  rw [scanAux_cons, hmatch]
  simp [scanAux_nil]

theorem resolveLoop_unbound (ctx : Ctx) (ids : List String) (s : String)
    (h : ∀ id ∈ ids, ctxGet ctx id = none) : resolveLoop ctx ids s = .vstr s := by
  induction ids generalizing s with
  | nil => rfl
  | cons a rest ih =>
      have ha := h a (by simp)
      simp only [resolveLoop, ha]
      exact ih s fun id hid => h id (by simp [hid])

theorem resolveList_map (ctx : Ctx) (xs : List Value) :
    resolveList ctx xs = xs.map (resolveValue ctx) := by
  induction xs with
  | nil => rfl
  | cons x xs ih => simp [resolveList, ih]

theorem resolveDict_map (ctx : Ctx) (xs : List (String × Value)) :
    resolveDict ctx xs = xs.map (fun p => (p.1, resolveValue ctx p.2)) := by
  induction xs with
  | nil => rfl
  | cons x xs ih =>
      cases x
      simp [resolveDict, ih]

/- ===================================================================
   Claim C3.
   =================================================================== -/

/-- Claim C3, counterexample: the resolution contract fails as stated.
For the value `"\x7b\x7ba\x7d\x7d\x7b\x7bb\x7d\x7d"` (two adjacent
placeholders, so a placeholder alongside other text) against a context
binding `a` to the empty string and `b` to the number 5, the claim's
contract (each bound placeholder replaced by the string form of its
value) yields the string "5", but `_resolve_value` returns the number 5:
after the replacement for `a` the mutated string equals exactly
`"\x7b\x7bb\x7d\x7d"`, so the whole-string test fires on it and returns
`b`'s value type-preserved. -/
theorem c3_counterexample :
    resolveValue [("a", .vstr ("")), ("b", .vint 5)] (.vstr ("\x7b\x7ba\x7d\x7d\x7b\x7bb\x7d\x7d"))
        = Value.vint 5
    ∧ specResolveString [("a", .vstr ("")), ("b", .vint 5)] ("\x7b\x7ba\x7d\x7d\x7b\x7bb\x7d\x7d")
        = Value.vstr ("5")
    ∧ Value.vint 5 ≠ Value.vstr ("5") := by
  refine ⟨rfl, rfl, ?_⟩
  intro h
  exact Value.noConfusion h

/-- Claim C3, amended: `_resolve_value` satisfies the resolution contract
with the replacement loop taken sequentially: (1) a string that is
exactly one placeholder over a word identifier bound in the context
resolves to the context value unchanged, type-preserving; (2) a string
none of whose placeholder identifiers is bound resolves to itself (left
intact, no error); (3) mappings and sequences are resolved element-wise
with structure preserved; (4) a string containing exactly one placeholder
occurrence alongside other text, with its identifier bound, has the
placeholder replaced by the string form of the context value.  (Strings
with several placeholders are processed sequentially, and when earlier
replacements leave exactly the text of a later placeholder, that value is
returned type-preserved — the behavior the counterexample exhibits.) -/
theorem c3_amended :
    (∀ (ctx : Ctx) (x : String) (v : Value), isIdent x → ctxGet ctx x = some v →
        resolveValue ctx (.vstr (ph x)) = v)
    ∧ (∀ (ctx : Ctx) (s : String), (∀ id ∈ findPlaceholders s, ctxGet ctx id = none) →
        resolveValue ctx (.vstr s) = .vstr s)
    ∧ (∀ (ctx : Ctx) (xs : List Value),
        resolveValue ctx (.vlist xs) = .vlist (xs.map (resolveValue ctx)))
    ∧ (∀ (ctx : Ctx) (xs : List (String × Value)),
        resolveValue ctx (.vdict xs) = .vdict (xs.map (fun p => (p.1, resolveValue ctx p.2))))
    ∧ (∀ (ctx : Ctx) (s x : String) (v : Value), findPlaceholders s = [x] →
        ctxGet ctx x = some v → s ≠ ph x →
        resolveValue ctx (.vstr s) = .vstr (strReplaceAll s (ph x) (pyStr v))) := by
  refine ⟨?_, ?_, ?_, ?_, ?_⟩
  · intro ctx x v hx hget
    simp [resolveValue, resolveString, findPh_single hx, resolveLoop, hget]
  · intro ctx s h
    simp only [resolveValue, resolveString]
    exact resolveLoop_unbound ctx _ s h
  · intro ctx xs
    simp [resolveValue, resolveList_map]
  · intro ctx xs
    simp [resolveValue, resolveDict_map]
  · intro ctx s x v hfind hget hne
    simp only [resolveValue, resolveString, hfind, resolveLoop, hget, if_neg hne]

/-- Witness for C3 amended: each clause applied at a concrete input. -/
theorem c3_amended_witness :
    resolveValue [("x", .vlist [.vint 1])] (.vstr (ph ("x"))) = Value.vlist [.vint 1]
    ∧ resolveValue [] (.vstr ("say \x7b\x7bq\x7d\x7d now")) = Value.vstr ("say \x7b\x7bq\x7d\x7d now")
    ∧ resolveValue [("n", .vint 7)] (.vstr ("n=\x7b\x7bn\x7d\x7d!")) = Value.vstr ("n=7!") := by
  refine ⟨c3_amended.1 _ ("x") _ (by constructor <;> decide) rfl, ?_, ?_⟩
  · exact c3_amended.2.1 [] _ (fun id _ => rfl)
  · exact (c3_amended.2.2.2.2 [("n", .vint 7)] ("n=\x7b\x7bn\x7d\x7d!") ("n") (.vint 7)
      (by decide) rfl (by decide)).trans rfl

/- ===================================================================
   Supporting lemmas for the rule-based parser.
   =================================================================== -/

theorem conf_pos (total mlen : Nat) : 0 < conf total mlen := by
  unfold conf
  positivity

theorem conf_le_one (total mlen : Nat) : conf total mlen ≤ 1 :=
  le_trans (min_le_left _ _) (by norm_num)

theorem conf_mono_frac {t1 t2 a b : Nat}
    (h : (a : Rat) / (t1 : Rat) ≤ (b : Rat) / (t2 : Rat)) :
    conf t1 a ≤ conf t2 b := by
  unfold conf
  exact min_le_min (le_refl _) (by linarith)

theorem pickBestAux_isSome (text : String) :
    ∀ (ms : List RuleMatch) (it : IntentType) (bc : Rat) (bents : List (String × Value)),
      ((pickBestAux text (some it) bc bents ms).1).isSome := by
  intro ms
  induction ms with
  | nil => intro it bc bents; rfl
  | cons m rest ih =>
      intro it bc bents
      simp only [pickBestAux]
      split
      · exact ih m.intent _ _
      · exact ih it bc bents

theorem pickBestAux_conf_mem (text : String) :
    ∀ (ms : List RuleMatch) (best : Option IntentType) (bc : Rat) (bents : List (String × Value)),
      (pickBestAux text best bc bents ms).2.1 = bc
      ∨ ∃ m ∈ ms, (pickBestAux text best bc bents ms).2.1 = conf text.length m.matchLen := by
  intro ms
  induction ms with
  | nil => intro best bc bents; exact Or.inl rfl
  | cons m rest ih =>
      intro best bc bents
      simp only [pickBestAux]
      split
      · rcases ih (some m.intent) (conf text.length m.matchLen)
            (extractEntities m.intent m.groups text) with h | ⟨m', hm', h⟩
        · exact Or.inr ⟨m, by simp, h⟩
        · exact Or.inr ⟨m', by simp [hm'], h⟩
      · rcases ih best bc bents with h | ⟨m', hm', h⟩
        · exact Or.inl h
        · exact Or.inr ⟨m', by simp [hm'], h⟩

theorem pickBestAux_conf_bounds (text : String) :
    ∀ (ms : List RuleMatch) (best : Option IntentType) (bc : Rat) (bents : List (String × Value)),
      0 ≤ bc → bc ≤ 1 → 0 ≤ (pickBestAux text best bc bents ms).2.1
        ∧ (pickBestAux text best bc bents ms).2.1 ≤ 1 := by
  intro ms
  induction ms with
  | nil => intro best bc bents h0 h1; exact ⟨h0, h1⟩
  | cons m rest ih =>
      intro best bc bents h0 h1
      simp only [pickBestAux]
      split
      · exact ih _ _ _ (le_of_lt (conf_pos _ _)) (conf_le_one _ _)
      · exact ih best bc bents h0 h1

/- ===================================================================
   Claim C4.
   =================================================================== -/

/-- Claim C4, confirmed: whenever at least one rule matches, the returned
confidence equals `min(0.9, coverage + 0.3)` for one of the supplied
matches (the winner of the strict-improvement fold); every confidence
returned by the rule-based parse lies in [0, 1]; and the per-match
confidence is monotonically non-decreasing in the covered fraction of the
input. -/
theorem c4_confidence :
    (∀ (text : String) (ms : List RuleMatch), ms ≠ [] →
        ∃ m ∈ ms, (parseWithRules text ms).confidence = conf text.length m.matchLen)
    ∧ (∀ (text : String) (ms : List RuleMatch),
        0 ≤ (parseWithRules text ms).confidence ∧ (parseWithRules text ms).confidence ≤ 1)
    ∧ (∀ t1 t2 a b : Nat, (a : Rat) / (t1 : Rat) ≤ (b : Rat) / (t2 : Rat) →
        conf t1 a ≤ conf t2 b) := by
  refine ⟨?_, ?_, fun t1 t2 a b h => conf_mono_frac h⟩
  · intro text ms hne
    rcases ms with _ | ⟨m0, rest⟩
    · exact absurd rfl hne
    · have hupd : pickBestAux text none 0 [] (m0 :: rest)
          = pickBestAux text (some m0.intent) (conf text.length m0.matchLen)
              (extractEntities m0.intent m0.groups text) rest := by
        simp only [pickBestAux]
        rw [if_pos (conf_pos _ _)]
      have hsome := pickBestAux_isSome text rest m0.intent (conf text.length m0.matchLen)
        (extractEntities m0.intent m0.groups text)
      have hmem := pickBestAux_conf_mem text rest (some m0.intent)
        (conf text.length m0.matchLen) (extractEntities m0.intent m0.groups text)
      rcases hres : pickBestAux text (some m0.intent) (conf text.length m0.matchLen)
          (extractEntities m0.intent m0.groups text) rest with ⟨ob, bc, bents⟩
      rw [hres] at hsome hmem
      rcases ob with _ | it
      · simp at hsome
      · have hconf : (parseWithRules text (m0 :: rest)).confidence = bc := by
          simp only [parseWithRules, hupd, hres]
        rcases hmem with h | ⟨m', hm', h⟩
        · exact ⟨m0, by simp, by rw [hconf]; exact h⟩
        · exact ⟨m', by simp [hm'], by rw [hconf]; exact h⟩
  · intro text ms
    have hb := pickBestAux_conf_bounds text ms none 0 [] (le_refl 0) (by norm_num)
    rcases hres : pickBestAux text none 0 [] ms with ⟨ob, bc, bents⟩
    rw [hres] at hb
    rcases ob with _ | it <;> simp only [parseWithRules, hres] <;> first
      | exact ⟨le_refl 0, by norm_num⟩
      | exact hb

/-- Witness for C4: the formula clause at one concrete match list and the
monotonicity clause at concrete fractions. -/
theorem c4_confidence_witness :
    (∃ m ∈ [(⟨.readFile, 10, [some ("f.txt")]⟩ : RuleMatch)],
        (parseWithRules ("read f.txt") [⟨.readFile, 10, [some ("f.txt")]⟩]).confidence
          = conf ("read f.txt").length m.matchLen)
    ∧ conf 10 5 ≤ conf 10 10 :=
  ⟨c4_confidence.1 ("read f.txt") [⟨.readFile, 10, [some ("f.txt")]⟩] (by simp),
   c4_confidence.2.2 10 10 5 10 (by norm_num)⟩

/- ===================================================================
   Claim C5.
   =================================================================== -/

/-- Claim C5, confirmed: on an input matching no registered rule (an
empty oracle match list), `_parse_with_rules` returns an intent of kind
Unknown with confidence exactly 0, no entities, and a non-empty fallback
suggestion; the function is total, so the rule-based path cannot raise. -/
theorem c5_unknown_fallback : ∀ text : String,
    (parseWithRules text []).intent = IntentType.unknown
    ∧ (parseWithRules text []).confidence = 0
    ∧ (parseWithRules text []).entities = []
    ∧ (parseWithRules text []).suggestedAction = some fallbackSuggestion
    ∧ fallbackSuggestion ≠ "" := by
  intro text
  exact ⟨rfl, rfl, rfl, rfl, by decide⟩

/- ===================================================================
   Claim C6.
   =================================================================== -/

/-- Substring test helper: does `needle` occur anywhere in the list? -/
def hasSubAux (needle : List Char) : List Char → Bool
  | [] => needle.isEmpty
  | c :: cs => needle.isPrefixOf (c :: cs) || hasSubAux needle cs

/-- Python `sub in s` for strings. -/
def strContainsSub (s sub : String) : Bool := hasSubAux sub.data s.data

/-- Claim C6, counterexample: the captured value `"httpbin.org"` is a
bare host (it contains no scheme separator `"://"`), yet the extracted
URL entity is returned without the `"https://"` prefix, because the
source's test is merely `url.startswith("http")`. -/
theorem c6_counterexample :
    extractEntities .fetchUrl [some ("httpbin.org")] ("fetch httpbin.org")
        = [("url", Value.vstr ("httpbin.org"))]
    ∧ startsWith ("httpbin.org") ("https://") = false
    ∧ strContainsSub ("httpbin.org") ("://") = false := by
  exact ⟨rfl, rfl, rfl⟩

/-- Claim C6, amended: for a FetchUrl or ScrapePage parse with a truthy
first capture, the entity map binds `url` to the captured value stripped
of surrounding whitespace and then of surrounding quote characters, with
`"https://"` prepended exactly when the stripped value does not start
with the four characters `"http"` (so a bare host beginning with "http"
stays unprefixed, and any value starting with "http" — scheme or not —
is left alone). -/
theorem c6_amended :
    ∀ (intent : IntentType) (s : String) (gs : List (Option String)) (text : String),
      (intent = .fetchUrl ∨ intent = .scrapePage) → s ≠ "" →
      extractEntities intent (some s :: gs) text
        = [("url", Value.vstr (if startsWith (stripQW s) ("http") then stripQW s
                               else "https://" ++ stripQW s))] := by
  intro intent s gs text hint hs
  rcases hint with h | h <;> subst h <;>
    simp only [extractEntities, groupsHeadTruthy, if_neg hs] <;>
    rcases hsw : startsWith (stripQW s) ("http") <;> simp [hsw]

/-- Witness for C6 amended: a bare host not beginning with "http" gets
the prefix. -/
theorem c6_amended_witness :
    extractEntities .fetchUrl [some ("example.com")] ("scrape example.com")
      = [("url", Value.vstr ("https://example.com"))] :=
  (c6_amended .fetchUrl ("example.com") [] ("scrape example.com") (Or.inl rfl)
    (by decide)).trans rfl

/- ===================================================================
   Claim C7.
   =================================================================== -/

/-- Claim C7, counterexample: `parse` strips the input before storing it,
so for the input `" help "` the returned intent's `raw_text` is
`"help"`, not the original text exactly as given. -/
theorem c7_counterexample :
    (parseCmd (" help ") []).rawText = "help"
    ∧ ("help" : String) ≠ " help " := by
  exact ⟨rfl, by decide⟩

/-- Claim C7, amended: the `raw_text` of the intent returned by `parse`
equals the input with leading and trailing whitespace stripped (hence the
original text exactly when it carries no surrounding whitespace).  The
embedding is pure, so no parser operation mutates a returned intent. -/
theorem c7_rawtext : ∀ (text : String) (ms : List RuleMatch),
    (parseCmd text ms).rawText = pyStripWs text
    ∧ (pyStripWs text = text → (parseCmd text ms).rawText = text) := by
  intro text ms
  have h : (parseCmd text ms).rawText = pyStripWs text := by
    unfold parseCmd
    rcases hres : pickBestAux (pyStripWs text) none 0 [] ms with ⟨ob, bc, bents⟩
    rcases ob with _ | it <;> simp [parseWithRules, hres]
  exact ⟨h, fun he => by rw [h, he]⟩

/-- Witness for C7 amended: an input with no surrounding whitespace is
stored verbatim. -/
theorem c7_rawtext_witness : (parseCmd ("help") []).rawText = "help" :=
  (c7_rawtext ("help") []).2 rfl

/- ===================================================================
   Claim C9.
   =================================================================== -/

/-- Claim C9, confirmed: `process` is total (never raises) and returns
the structured outcome of the claim: a dispatch value yields
`success = true` with `intent`, `action` and `result`; a dispatch
exception is caught and yields `success = false` with `intent`, `action`
and the error message. -/
theorem c9_process_total :
    ∀ (command : String) (ms : List RuleMatch) (dispatch : ParsedIntent → Except String Value),
      (∀ v, dispatch (parseCmd command ms) = .ok v →
        (processCmd command ms dispatch).1
          = { success := true, intent := intentValue (parseCmd command ms).intent,
              action := (parseCmd command ms).suggestedAction,
              result := some v, error := none })
      ∧ (∀ e, dispatch (parseCmd command ms) = .error e →
        (processCmd command ms dispatch).1
          = { success := false, intent := intentValue (parseCmd command ms).intent,
              action := (parseCmd command ms).suggestedAction,
              result := none, error := some e }) := by
  intro command ms dispatch
  constructor <;> intro z hz <;> simp [processCmd, hz]

/-- Witness for C9: both branches at a concrete command and dispatch. -/
theorem c9_process_total_witness :
    (processCmd ("help") [] (fun _ => .error ("boom"))).1
        = { success := false, intent := intentValue (parseCmd ("help") []).intent,
            action := (parseCmd ("help") []).suggestedAction,
            result := none, error := some ("boom") }
    ∧ (processCmd ("help") [] (fun _ => .ok (.vint 1))).1
        = { success := true, intent := intentValue (parseCmd ("help") []).intent,
            action := (parseCmd ("help") []).suggestedAction,
            result := some (.vint 1), error := none } :=
  ⟨(c9_process_total ("help") [] (fun _ => .error ("boom"))).2 ("boom") rfl,
   (c9_process_total ("help") [] (fun _ => .ok (.vint 1))).1 (.vint 1) rfl⟩

/- ===================================================================
   Supporting lemmas for the executor.
   =================================================================== -/

theorem attemptLoop_count_le (beh1 : Nat → Except String Value) (delay : Rat) :
    ∀ (maxA a : Nat), (attemptLoop beh1 delay maxA a).2.1 ≤ maxA := by
  intro maxA
  induction maxA with
  | zero => intro a; simp [attemptLoop]
  | succ rem ih =>
      intro a
      simp only [attemptLoop]
      rcases beh1 a with e | v
      · by_cases h : rem = 0
        · simp [h]
        · simp only [if_neg h]
          have := ih (a + 1)
          omega
      · simp

theorem attemptLoop_count_pos (beh1 : Nat → Except String Value) (delay : Rat) :
    ∀ (maxA a : Nat), 1 ≤ maxA → 1 ≤ (attemptLoop beh1 delay maxA a).2.1 := by
  intro maxA a hmax
  rcases maxA with _ | rem
  · omega
  · simp only [attemptLoop]
    rcases beh1 a with e | v
    · by_cases h : rem = 0
      · simp [h]
      · simp only [if_neg h]; omega
    · simp

theorem attemptLoop_sleeps (beh1 : Nat → Except String Value) (delay : Rat) :
    ∀ (maxA a : Nat), (attemptLoop beh1 delay maxA a).2.2
      = List.replicate ((attemptLoop beh1 delay maxA a).2.1 - 1) delay := by
  intro maxA
  induction maxA with
  | zero => intro a; simp [attemptLoop]
  | succ rem ih =>
      intro a
      simp only [attemptLoop]
      rcases beh1 a with e | v
      · by_cases h : rem = 0
        · simp [h]
        · simp only [if_neg h]
          have hpos := attemptLoop_count_pos beh1 delay rem (a + 1) (by omega)
          rcases hn : (attemptLoop beh1 delay rem (a + 1)).2.1 with _ | n
          · omega
          · simp only [ih (a + 1), hn]
            simp [List.replicate_succ]
      · simp

theorem attemptLoop_first_success (beh1 : Nat → Except String Value) (delay : Rat) (v : Value) :
    ∀ (k maxA a : Nat), k < maxA →
      (∀ j, j < k → ∃ e, beh1 (a + j) = .error e) → beh1 (a + k) = .ok v →
      attemptLoop beh1 delay maxA a = (.ok v, k + 1, List.replicate k delay) := by
  intro k
  induction k with
  | zero =>
      intro maxA a hk hfail hok
      rcases maxA with _ | rem
      · omega
      · simp only [attemptLoop]
        rw [show beh1 a = .ok v from by simpa using hok]
        rfl
  | succ k ih =>
      intro maxA a hk hfail hok
      rcases maxA with _ | rem
      · omega
      · obtain ⟨e, he⟩ := hfail 0 (Nat.succ_pos k)
        rw [Nat.add_zero] at he
        have hrem : rem ≠ 0 := by omega
        simp only [attemptLoop, he, if_neg hrem]
        have hih : attemptLoop beh1 delay rem (a + 1) = (.ok v, k + 1, List.replicate k delay) := by
          apply ih rem (a + 1) (by omega)
          · intro j hj
            obtain ⟨e', he'⟩ := hfail (j + 1) (by omega)
            exact ⟨e', by rw [show a + 1 + j = a + (j + 1) from by omega]; exact he'⟩
          · rw [show a + 1 + k = a + (k + 1) from by omega]
            exact hok
        rw [hih]
        simp [List.replicate_succ]

theorem ctxGet_set_ne {c : Ctx} {k' k : String} (h : k' ≠ k) (v : Value) :
    ctxGet (ctxSet c k' v) k = ctxGet c k := by
  induction c with
  | nil => simp [ctxSet, ctxGet, h]
  | cons p rest ih =>
      rcases p with ⟨a, b⟩
      by_cases ha : a = k'
      · subst ha
        simp [ctxSet, ctxGet, h]
      · simp only [ctxSet, if_neg ha, ctxGet]
        split
        · rfl
        · exact ih

theorem ctxGet_set_self (c : Ctx) (k : String) (v : Value) :
    ctxGet (ctxSet c k v) k = some v := by
  induction c with
  | nil => simp [ctxSet, ctxGet]
  | cons p rest ih =>
      rcases p with ⟨a, b⟩
      by_cases ha : a = k
      · subst ha
        simp [ctxSet, ctxGet]
      · simp [ctxSet, ctxGet, ha, ih]

theorem ctxGet_update_no_key {c u : Ctx} {k : String} (h : ∀ p ∈ u, p.1 ≠ k) :
    ctxGet (ctxUpdate c u) k = ctxGet c k := by
  induction u generalizing c with
  | nil => rfl
  | cons p rest ih =>
      rcases p with ⟨a, b⟩
      have ha : a ≠ k := h (a, b) (by simp)
      show ctxGet (ctxUpdate (ctxSet c a b) rest) k = ctxGet c k
      rw [ih (fun p hp => h p (by simp [hp]))]
      exact ctxGet_set_ne ha b

/-- Every loop iteration appends exactly one trace entry carrying the
step's name, an invocation count bounded by `retry_count + 1`, and one
`retry_delay` sleep between consecutive attempts. -/
theorem runStep1_trace (condEval : String → Ctx → Except String Value)
    (beh : Nat → Nat → Except String Value) (dur : Nat → Rat) (s : Step) (i : Nat)
    (st : ExecState) :
    ∃ inv sleeps, (runStep1 condEval beh dur s i st).1.2.2.2.1
        = st.2.2.2.1 ++ [⟨s.name, inv, sleeps⟩]
      ∧ inv ≤ s.retryCount + 1 ∧ sleeps = List.replicate (inv - 1) s.retryDelay := by
  rcases st with ⟨ctx, res, recs, trs, failed, fstep⟩
  by_cases hcs : condSkipped condEval s ctx
  · exact ⟨0, [], by simp [runStep1, hcs], by omega, by simp⟩
  · rcases hal : attemptLoop (beh i) s.retryDelay (s.retryCount + 1) 0 with ⟨o, inv, sleeps⟩
    have hle : inv ≤ s.retryCount + 1 := by
      have h := attemptLoop_count_le (beh i) s.retryDelay (s.retryCount + 1) 0
      rw [hal] at h
      exact h
    have hsl : sleeps = List.replicate (inv - 1) s.retryDelay := by
      have h := attemptLoop_sleeps (beh i) s.retryDelay (s.retryCount + 1) 0
      rw [hal] at h
      exact h
    refine ⟨inv, sleeps, ?_, hle, hsl⟩
    rcases o with e | v
    · by_cases hsk : s.onError == "skip" <;> simp [runStep1, hcs, hal, hsk]
    · simp [runStep1, hcs, hal]

/-- A loop iteration leaves every context key its step does not save
untouched. -/
theorem runStep1_ctx (condEval : String → Ctx → Except String Value)
    (beh : Nat → Nat → Except String Value) (dur : Nat → Rat) (s : Step) (i : Nat)
    (st : ExecState) (k : String) (hs : s.saveResultAs ≠ some k) :
    ctxGet (runStep1 condEval beh dur s i st).1.1 k = ctxGet st.1 k := by
  rcases st with ⟨ctx, res, recs, trs, failed, fstep⟩
  by_cases hcs : condSkipped condEval s ctx
  · simp [runStep1, hcs]
  · rcases hal : attemptLoop (beh i) s.retryDelay (s.retryCount + 1) 0 with ⟨o, inv, sleeps⟩
    rcases o with e | v
    · by_cases hsk : s.onError == "skip" <;> simp [runStep1, hcs, hal, hsk]
    · rcases hsra : s.saveResultAs with _ | k'
      · simp [runStep1, hcs, hal, hsra]
      · have hk : k' ≠ k := fun h => hs (by rw [hsra, h])
        simp [runStep1, hcs, hal, hsra, ctxGet_set_ne hk]

/-- Every trace entry of a loop run belongs to the incoming trace or
matches one of the executed steps, with its invocation count bounded by
that step's `retry_count + 1` and linear sleeps. -/
theorem runSteps_trace_bound (condEval : String → Ctx → Except String Value)
    (beh : Nat → Nat → Except String Value) (dur : Nat → Rat) :
    ∀ (steps : List Step) (i : Nat) (st : ExecState),
      ∀ t ∈ (runSteps condEval beh dur steps i st).2.2.2.1,
        t ∈ st.2.2.2.1 ∨ ∃ s ∈ steps, t.name = s.name ∧ t.invocations ≤ s.retryCount + 1
          ∧ t.sleeps = List.replicate (t.invocations - 1) s.retryDelay := by
  intro steps
  induction steps with
  | nil => intro i st t ht; exact Or.inl ht
  | cons s rest ih =>
      intro i st t ht
      obtain ⟨inv, sleeps, htr, hle, hsl⟩ := runStep1_trace condEval beh dur s i st
      have hP : ∀ t', t' ∈ (runStep1 condEval beh dur s i st).1.2.2.2.1 →
          t' ∈ st.2.2.2.1 ∨ ∃ s' ∈ s :: rest, t'.name = s'.name
            ∧ t'.invocations ≤ s'.retryCount + 1
            ∧ t'.sleeps = List.replicate (t'.invocations - 1) s'.retryDelay := by
        intro t' ht'
        rw [htr] at ht'
        rcases List.mem_append.1 ht' with h | h
        · exact Or.inl h
        · simp only [List.mem_singleton] at h
          subst h
          exact Or.inr ⟨s, by simp, rfl, hle, hsl⟩
      revert ht
      simp only [runSteps]
      rcases h1 : runStep1 condEval beh dur s i st with ⟨st', brk⟩
      intro ht
      rcases brk with _ | _
      · simp only [if_neg Bool.false_ne_true] at ht
        rcases ih (i + 1) st' t ht with h | ⟨s', hs', hp⟩
        · have := hP t (by rw [h1]; exact h)
          rcases this with h' | h'
          · exact Or.inl h'
          · exact Or.inr h'
        · exact Or.inr ⟨s', by simp [hs'], hp⟩
      · simp only [if_pos rfl] at ht
        exact hP t (by rw [h1]; exact ht)

/-- The loop leaves every context key no step saves untouched. -/
theorem runSteps_ctx_preserve (condEval : String → Ctx → Except String Value)
    (beh : Nat → Nat → Except String Value) (dur : Nat → Rat) (k : String) :
    ∀ (steps : List Step) (i : Nat) (st : ExecState),
      (∀ s ∈ steps, s.saveResultAs ≠ some k) →
      ctxGet (runSteps condEval beh dur steps i st).1 k = ctxGet st.1 k := by
  intro steps
  induction steps with
  | nil => intro i st h; rfl
  | cons s rest ih =>
      intro i st h
      have hs : s.saveResultAs ≠ some k := h s (by simp)
      have hrest : ∀ s' ∈ rest, s'.saveResultAs ≠ some k := fun s' hs' => h s' (by simp [hs'])
      have hctx := runStep1_ctx condEval beh dur s i st k hs
      simp only [runSteps]
      rcases h1 : runStep1 condEval beh dur s i st with ⟨st', brk⟩
      rw [h1] at hctx
      rcases brk with _ | _
      · simp only [if_neg Bool.false_ne_true]
        rw [ih (i + 1) st' hrest]
        exact hctx
      · simp only [if_pos rfl]
        exact hctx

/- ===================================================================
   Concrete fixtures shared by the executor claims.
   =================================================================== -/

/-- Condition oracle whose every evaluation yields `True`. -/
def condT : String → Ctx → Except String Value := fun _ _ => .ok (.vbool true)

/-- Condition oracle whose every evaluation yields `False`. -/
def condF : String → Ctx → Except String Value := fun _ _ => .ok (.vbool false)

/-- Duration oracle measuring zero wall-clock time. -/
def dur0 : Nat → Rat := fun _ => 0

/-- Capability stub: every operation succeeds with the string "ok". -/
def behOk : Nat → Nat → Except String Value := fun _ _ => .ok (.vstr ("ok"))

/-- Capability stub: every operation raises. -/
def behFail : Nat → Nat → Except String Value := fun _ _ => .error ("boom")

/-- Capability stub for C1: step 0 always raises, later steps succeed. -/
def behC1 : Nat → Nat → Except String Value := fun i _ =>
  if i = 0 then .error ("boom") else .ok (.vstr ("ok"))

/-- Two-step workflow for C1: B has `error_policy = retry` (with zero
retries) and always fails; C follows it. -/
def wfC1 : Workflow :=
  { name := "w", steps := [{ name := "B", onError := "retry" }, { name := "C" }] }

/-- Two-step workflow for C2: s1 carries a condition, s2 does not. -/
def wfC2 : Workflow :=
  { name := "w2", steps := [{ name := "s1", condition := some ("cond") }, { name := "s2" }] }

/-- Capability stub for C8: attempts 0 and 1 fail, attempt 2 succeeds. -/
def beh8 : Nat → Nat → Except String Value := fun _ a =>
  if a < 2 then .error ("fail") else .ok (.vstr ("ok"))

/-- One-step workflow for C8: `error_policy = Retry(count := 2, delay := 0)`. -/
def wf8 : Workflow :=
  { name := "w8", steps := [{ name := "s", retryCount := 2, retryDelay := 0 }] }

/- ===================================================================
   Claim C1.
   =================================================================== -/

set_option maxRecDepth 8000 in
/-- Claim C1, counterexample: in `wfC1`, step B's policy is `"retry"`
(not Skip) and its attempts exhaust, yet step C still executes — its
completed record appears in the per-step list — contradicting the claim
that under every non-Skip policy no step after the exhausted one
executes.  (The run is still marked failed with `failed_step = "B"`.) -/
theorem c1_counterexample :
    (runWf wfC1 [] condT behC1 dur0).1.steps
        = [.failedRec ("B") ("boom"), .completed ("C") 0 (some ("ok"))]
    ∧ (runWf wfC1 [] condT behC1 dur0).1.status = "failed"
    ∧ (runWf wfC1 [] condT behC1 dur0).1.failedStep = some ("B") := by
  exact ⟨by decide, rfl, rfl⟩

/-- Claim C1, amended: once a step's attempts are exhausted, a `"skip"`
policy records Skipped with the error message and continues; a `"fail"`
policy records Failed, stops the loop at once and leaves the run failed
with `failed_step` set to that step; any other policy (the source's
`"retry"` included) records Failed and marks the run failed with
`failed_step` set, but the following steps still execute.  The final
clause ties the run report's status to the failed flag. -/
theorem c1_error_policy :
    (∀ (condEval : String → Ctx → Except String Value)
        (beh : Nat → Nat → Except String Value) (dur : Nat → Rat)
        (s : Step) (rest : List Step) (i : Nat) (st : ExecState)
        (e : String) (inv : Nat) (ss : List Rat),
      condSkipped condEval s st.1 = false →
      attemptLoop (beh i) s.retryDelay (s.retryCount + 1) 0 = (.error e, inv, ss) →
      ((s.onError = "skip" →
          runSteps condEval beh dur (s :: rest) i st
            = runSteps condEval beh dur rest (i + 1)
                (st.1, st.2.1, st.2.2.1 ++ [.errSkipped s.name e],
                 st.2.2.2.1 ++ [⟨s.name, inv, ss⟩], st.2.2.2.2.1, st.2.2.2.2.2))
       ∧ (s.onError = "fail" →
          runSteps condEval beh dur (s :: rest) i st
            = (st.1, st.2.1, st.2.2.1 ++ [.failedRec s.name e],
               st.2.2.2.1 ++ [⟨s.name, inv, ss⟩], true, some s.name))
       ∧ (s.onError ≠ "skip" → s.onError ≠ "fail" →
          runSteps condEval beh dur (s :: rest) i st
            = runSteps condEval beh dur rest (i + 1)
                (st.1, st.2.1, st.2.2.1 ++ [.failedRec s.name e],
                 st.2.2.2.1 ++ [⟨s.name, inv, ss⟩], true, some s.name))))
    ∧ (∀ (wf : Workflow) (initCtx : Ctx) (condEval : String → Ctx → Except String Value)
        (beh : Nat → Nat → Except String Value) (dur : Nat → Rat),
        (runWf wf initCtx condEval beh dur).1.status
          = if (runSteps condEval beh dur wf.steps 0
                (ctxUpdate wf.context initCtx, [], [], [], false, none)).2.2.2.2.1
            then ("failed") else ("completed")) := by
  constructor
  · intro condEval beh dur s rest i st e inv ss hcs hal
    rcases st with ⟨ctx, res, recs, trs, failed, fstep⟩
    refine ⟨?_, ?_, ?_⟩
    · intro h
      simp [runSteps, runStep1, hcs, hal, h]
    · intro h
      simp [runSteps, runStep1, hcs, hal, h]
    · intro h1 h2
      have hb1 : (s.onError == "skip") = false := beq_eq_false_iff_ne.2 h1
      have hb2 : (s.onError == "fail") = false := beq_eq_false_iff_ne.2 h2
      simp [runSteps, runStep1, hcs, hal, hb1, hb2]
  · intro wf initCtx condEval beh dur
    rcases hrun : runSteps condEval beh dur wf.steps 0
        (ctxUpdate wf.context initCtx, [], [], [], false, none)
      with ⟨ctx', res', recs', trs', failed', fstep'⟩
    simp [runWf, hrun]

/-- Witness for C1 amended: the skip clause at a concrete one-step
workflow whose single attempt fails. -/
theorem c1_error_policy_witness :
    runSteps condT behFail dur0 [{ name := "B", onError := "skip" }] 0 ([], [], [], [], false, none)
      = runSteps condT behFail dur0 [] 1
          ([], [], [.errSkipped ("B") ("boom")], [⟨"B", 1, []⟩], false, none) :=
  (c1_error_policy.1 condT behFail dur0 { name := "B", onError := "skip" } [] 0
    ([], [], [], [], false, none) ("boom") 1 [] rfl rfl).1 rfl

/- ===================================================================
   Claim C2.
   =================================================================== -/

set_option maxRecDepth 8000 in
/-- Claim C2, counterexample: a step whose condition evaluates false is
recorded as Skipped with reason "condition not met", but the record
carries no duration key at all — there is no recorded wall-clock
duration of 0, contrary to the claim.  (Order and non-invocation hold:
the skipped record precedes the next step's, and its trace entry shows
zero capability invocations.) -/
theorem c2_counterexample :
    (runWf wfC2 [] condF behOk dur0).1.steps
        = [.condSkipped ("s1"), .completed ("s2") 0 (some ("ok"))]
    ∧ (runWf wfC2 [] condF behOk dur0).2.2 = [⟨"s1", 0, []⟩, ⟨"s2", 1, []⟩]
    ∧ "duration" ∉ recKeys (.condSkipped ("s1")) := by
  exact ⟨by decide, rfl, by decide⟩

/-- Claim C2, amended: a step whose condition evaluates falsy against
the current context is recorded, in execution order, as Skipped (with
reason "condition not met"), with no duration field in its record, and
with zero Capability Surface invocations; execution continues with the
following steps. -/
theorem c2_condition_skip :
    ∀ (condEval : String → Ctx → Except String Value)
      (beh : Nat → Nat → Except String Value) (dur : Nat → Rat)
      (s : Step) (rest : List Step) (i : Nat) (st : ExecState) (c : String) (v : Value),
      s.condition = some c → condEval c st.1 = .ok v → truthy v = false →
      runSteps condEval beh dur (s :: rest) i st
        = runSteps condEval beh dur rest (i + 1)
            (st.1, st.2.1, st.2.2.1 ++ [.condSkipped s.name],
             st.2.2.2.1 ++ [⟨s.name, 0, []⟩], st.2.2.2.2.1, st.2.2.2.2.2)
      ∧ "duration" ∉ recKeys (.condSkipped s.name) := by
  intro condEval beh dur s rest i st c v hc he hf
  rcases st with ⟨ctx, res, recs, trs, failed, fstep⟩
  have hcs : condSkipped condEval s ctx = true := by
    simp [condSkipped, hc, he, hf]
  exact ⟨by simp [runSteps, runStep1, hcs], by simp [recKeys]⟩

/-- Witness for C2 amended: one concrete condition-skipped step. -/
theorem c2_condition_skip_witness :
    runSteps condF behOk dur0 [{ name := "s1", condition := some ("cond") }] 0
        ([], [], [], [], false, none)
      = runSteps condF behOk dur0 [] 1
          ([], [], [.condSkipped ("s1")], [⟨"s1", 0, []⟩], false, none)
    ∧ "duration" ∉ recKeys (.condSkipped ("s1")) :=
  c2_condition_skip condF behOk dur0 _ [] 0 ([], [], [], [], false, none)
    ("cond") (.vbool false) rfl rfl rfl

/- ===================================================================
   Claim C8.
   =================================================================== -/

set_option maxRecDepth 8000 in
/-- Claim C8, confirmed: every step is invoked at most
`retry_count + 1` times with exactly one fixed `retry_delay` sleep
between consecutive attempts (linear, not growing); the retry loop stops
at the first successful attempt, having invoked the operation exactly
`k + 1` times when the first success is attempt `k`; and the concrete
Retry(count = 2, delay = 0) scenario against a fail-fail-succeed stub
ends Completed after exactly 3 invocations. -/
theorem c8_retry :
    (∀ (wf : Workflow) (initCtx : Ctx) (condEval : String → Ctx → Except String Value)
        (beh : Nat → Nat → Except String Value) (dur : Nat → Rat),
        ∀ t ∈ (runWf wf initCtx condEval beh dur).2.2,
          ∃ s ∈ wf.steps, t.name = s.name ∧ t.invocations ≤ s.retryCount + 1
            ∧ t.sleeps = List.replicate (t.invocations - 1) s.retryDelay)
    ∧ (∀ (beh1 : Nat → Except String Value) (delay : Rat) (v : Value) (k maxA a : Nat),
        k < maxA → (∀ j, j < k → ∃ e, beh1 (a + j) = .error e) → beh1 (a + k) = .ok v →
        attemptLoop beh1 delay maxA a = (.ok v, k + 1, List.replicate k delay))
    ∧ ((runWf wf8 [] condT beh8 dur0).1.status = "completed"
        ∧ (runWf wf8 [] condT beh8 dur0).2.2 = [⟨"s", 3, [0, 0]⟩]
        ∧ (runWf wf8 [] condT beh8 dur0).1.steps = [.completed ("s") 0 (some ("ok"))]) := by
  refine ⟨?_, ?_, rfl, rfl, by decide⟩
  · intro wf initCtx condEval beh dur t ht
    rcases hrun : runSteps condEval beh dur wf.steps 0
        (ctxUpdate wf.context initCtx, [], [], [], false, none)
      with ⟨ctx', res', recs', trs', failed', fstep'⟩
    have hb := runSteps_trace_bound condEval beh dur wf.steps 0
      (ctxUpdate wf.context initCtx, [], [], [], false, none) t
    rw [hrun] at hb
    have htr : t ∈ trs' := by
      revert ht
      simp [runWf, hrun]
    rcases hb htr with h | h
    · exact absurd h (List.not_mem_nil t)
    · exact h
  · intro beh1 delay v k maxA a hk hfail hok
    exact attemptLoop_first_success beh1 delay v k maxA a hk hfail hok

/-- Witness for C8: the first-success clause at the fail-fail-succeed
stub with three allowed attempts. -/
theorem c8_retry_witness :
    attemptLoop (beh8 0) 0 3 0 = (.ok (.vstr ("ok")), 3, List.replicate 2 0) :=
  c8_retry.2.1 (beh8 0) 0 (.vstr ("ok")) 2 3 0 (by norm_num)
    (fun j hj => ⟨"fail", by simp [beh8, hj]⟩) (by simp [beh8])

/- ===================================================================
   Claim C10.
   =================================================================== -/

/-- Claim C10, confirmed: `run` clears `self.results` before executing —
two instances differing only in their saved-results map produce
identical runs — while the variable context is merely merged with the
initial-context arguments, not cleared: a key no step of the run saves
and absent from the initial context keeps its pre-run binding, and a
merged initial binding is visible.  Hence a variable saved by an earlier
run of the same instance (living in `self.context`) remains visible to a
later run unless overwritten. -/
theorem c10_frame :
    (∀ (name : String) (steps : List Step) (ctx res1 res2 initCtx : Ctx)
        (condEval : String → Ctx → Except String Value)
        (beh : Nat → Nat → Except String Value) (dur : Nat → Rat),
        runWf { name := name, steps := steps, context := ctx, results := res1 }
            initCtx condEval beh dur
          = runWf { name := name, steps := steps, context := ctx, results := res2 }
              initCtx condEval beh dur)
    ∧ (∀ (wf : Workflow) (initCtx : Ctx) (condEval : String → Ctx → Except String Value)
        (beh : Nat → Nat → Except String Value) (dur : Nat → Rat) (k : String),
        (∀ s ∈ wf.steps, s.saveResultAs ≠ some k) → (∀ p ∈ initCtx, p.1 ≠ k) →
        ctxGet ((runWf wf initCtx condEval beh dur).2.1.context) k = ctxGet wf.context k)
    ∧ (∀ (wf : Workflow) (condEval : String → Ctx → Except String Value)
        (beh : Nat → Nat → Except String Value) (dur : Nat → Rat) (k : String) (v : Value),
        (∀ s ∈ wf.steps, s.saveResultAs ≠ some k) →
        ctxGet ((runWf wf [(k, v)] condEval beh dur).2.1.context) k = some v) := by
  refine ⟨fun name steps ctx res1 res2 initCtx condEval beh dur => rfl, ?_, ?_⟩
  · intro wf initCtx condEval beh dur k h1 h2
    rcases hrun : runSteps condEval beh dur wf.steps 0
        (ctxUpdate wf.context initCtx, [], [], [], false, none)
      with ⟨ctx', res', recs', trs', failed', fstep'⟩
    have hpres := runSteps_ctx_preserve condEval beh dur k wf.steps 0
      (ctxUpdate wf.context initCtx, [], [], [], false, none) h1
    rw [hrun] at hpres
    simp only [runWf, hrun]
    have hpres' : ctxGet ctx' k = ctxGet (ctxUpdate wf.context initCtx) k := hpres
    rw [hpres']
    exact ctxGet_update_no_key h2
  · intro wf condEval beh dur k v h1
    rcases hrun : runSteps condEval beh dur wf.steps 0
        (ctxUpdate wf.context [(k, v)], [], [], [], false, none)
      with ⟨ctx', res', recs', trs', failed', fstep'⟩
    have hpres := runSteps_ctx_preserve condEval beh dur k wf.steps 0
      (ctxUpdate wf.context [(k, v)], [], [], [], false, none) h1
    rw [hrun] at hpres
    simp only [runWf, hrun]
    have hpres' : ctxGet ctx' k = ctxGet (ctxUpdate wf.context [(k, v)]) k := hpres
    rw [hpres']
    exact ctxGet_set_self wf.context k v

/-- Instance state as left by an earlier run: a context binding for `x`
and a stale saved-results map. -/
def wf10 : Workflow :=
  { name := "w10", steps := [{ name := "noop" }],
    context := [("x", Value.vstr ("v"))], results := [("stale", Value.vint 1)] }

/-- Witness for C10: an instance whose context holds a binding saved by
an earlier run (and a stale results map) re-run with no initial context:
the stale results do not influence the run, and the old binding stays
visible. -/
theorem c10_frame_witness :
    runWf wf10 [] condT behOk dur0 = runWf { wf10 with results := [] } [] condT behOk dur0
    ∧ ctxGet ((runWf wf10 [] condT behOk dur0).2.1.context) ("x") = some (Value.vstr ("v")) :=
  ⟨c10_frame.1 ("w10") [{ name := "noop" }] [("x", Value.vstr ("v"))]
      [("stale", Value.vint 1)] [] [] condT behOk dur0,
   (c10_frame.2.1 wf10 [] condT behOk dur0 ("x") (by decide)
      (fun p hp => absurd hp (List.not_mem_nil p))).trans rfl⟩

end AuthorRpa
